import Mathlib

/-!
Shallow embedding of the order-lifecycle engine in
src/base_market_maker.py (class BaseMarketMaker).

Modelling conventions:
* Python dicts with integer keys become association lists
  (List (Nat × _)) with Python semantics: assignment `d[k] = v`
  updates the entry in place when the key exists and appends it
  otherwise; `d[k]` raises KeyError when the key is absent; `len d`
  is the number of keys (genuine Python dicts have no duplicate
  keys, which theorems record as a Nodup hypothesis where the
  count matters).
* The attribute `self.symbol` is never assigned by `__init__` (which
  assigns `mm_symbol`); it is modelled as an Option String field that
  is none on the base-class instance, and reading it when absent
  raises AttributeError exactly as Python does.
* The abstract methods of the class (`send_limit_order`,
  `delete_all_orders`, `check_order_fills`, `process_order_fill`,
  `set_order_levels`, `order_refresh_needed`) have body `pass` in the
  source and are supplied by subclasses; they are modelled as oracle
  parameters, indexed by loop-iteration number so that each call site
  may observe a different environment response.  `set_order_levels`
  is modelled by its documented effect (it sets `self.ask_levels` and
  `self.bid_levels`); `process_order_fill` is an arbitrary transformer
  of the book state.
* Raised exceptions become an error component in the result, carrying
  the state at the moment the exception propagates; the traces record
  the calls the concrete methods make, in order.
-/

/-- One planned quote level: the kwargs dict stored in ask_levels /
bid_levels (clOrdID, side, px, qty, alo, tif, extra params).  Prices
and quantities are opaque payload for the control logic. -/
structure Order where
  clOrdID : String
  side : String
  px : Int
  qty : Int
  alo : Bool
  tif : String
  params : List (String × String)
deriving DecidableEq, Repr

/-- Python exceptions that the concrete methods can raise. -/
inductive PyErr where
  | keyError (k : Nat)
  | attributeError (name : String)
  | exception (msg : String)
deriving DecidableEq, Repr

/-- Observable events of the engine: the calls made by the concrete
methods run, refresh_all_orders and send_all_orders, in order. -/
inductive Ev where
  | deleteAll (symbol : String) (verify : Bool) (retries : Nat)
  | checkFills (result : Bool)
  | processFill
  | setOrderLevels
  | sendAllOrders
  | refreshAll
  | refreshIndividual
  | iter (i : Nat)
  | submitA (i : Nat)
  | submitB (i : Nat)
deriving DecidableEq, Repr

/-- Python dict lookup d.get(k): the entry with the key, none when
absent (Python dicts have unique keys, so the first match is the
entry). -/
def dget? : List (Nat × α) → Nat → Option α
  | [], _ => none
  | p :: d, k => if p.1 == k then some p.2 else dget? d k

/-- Python `k in d`. -/
def dcontains : List (Nat × α) → Nat → Bool
  | [], _ => false
  | p :: d, k => (p.1 == k) || dcontains d k

/-- Python `d[k] = v`: update in place when the key exists, else
append at the end (dicts preserve insertion order). -/
def dinsert : List (Nat × α) → Nat → α → List (Nat × α)
  | [], k, v => [(k, v)]
  | p :: d, k, v => if p.1 == k then (k, v) :: d else p :: dinsert d k v

/-- The keys of a dict, in order. -/
def dkeys (d : List (Nat × α)) : List Nat :=
  d.map Prod.fst

/-- The four dict attributes of the order book: planned levels and
active order handles (level index to clOrdID), as set up by __init__. -/
structure BookState where
  ask_levels : List (Nat × Order)
  bid_levels : List (Nat × Order)
  active_asks : List (Nat × String)
  active_bids : List (Nat × String)
deriving DecidableEq, Repr

/-- The attributes of a BaseMarketMaker instance.  `symbol` is none
when the attribute was never assigned (as on the base class, whose
__init__ assigns only base, quote, mm_symbol and the four dicts). -/
structure MMState where
  base : String
  quote : String
  mm_symbol : String
  symbol : Option String
  book : BookState
deriving DecidableEq, Repr

/-- The constructor __init__: ticker info plus four empty dicts; the
attribute `symbol` is not assigned. -/
def initMM (base quote mm_symbol : String) : MMState :=
  { base := base, quote := quote, mm_symbol := mm_symbol,
    symbol := none,
    book := { ask_levels := [], bid_levels := [], active_asks := [],
              active_bids := [] } }

/-- Result of running a method body: optional propagating exception,
the instance state at that moment, and the event trace. -/
structure SRes where
  err : Option PyErr
  book : BookState
  trace : List Ev
deriving DecidableEq, Repr

/-- Ask half of one loop iteration of send_all_orders: when
i < num_asks, look up ask_levels[i] (KeyError when the key is
missing) and store the value returned by send_limit_order with
verifyOrder=False into active_asks[i]. -/
def askStep (sa : Nat → Order → String) (numA : Nat)
    (r : SRes) (i : Nat) : SRes :=
  if i < numA then
    match dget? r.book.ask_levels i with
    | none => { r with err := some (PyErr.keyError i) }
    | some kw =>
        { r with
          book := { r.book with
            active_asks := dinsert r.book.active_asks i (sa i kw) },
          trace := r.trace ++ [Ev.submitA i] }
  else r

/-- Bid half of one loop iteration of send_all_orders. -/
def bidStep (sb : Nat → Order → String) (numB : Nat)
    (r : SRes) (i : Nat) : SRes :=
  if i < numB then
    match dget? r.book.bid_levels i with
    | none => { r with err := some (PyErr.keyError i) }
    | some kw =>
        { r with
          book := { r.book with
            active_bids := dinsert r.book.active_bids i (sb i kw) },
          trace := r.trace ++ [Ev.submitB i] }
  else r

/-- One iteration of the `for i in range(iterations)` loop of
send_all_orders: ask side first, then bid side; a raised KeyError
aborts the loop (no further iterations run). -/
def sendStep (sa sb : Nat → Order → String) (numA numB : Nat)
    (r : SRes) (i : Nat) : SRes :=
  if r.err.isSome then r
  else
    let r2 := askStep sa numA { r with trace := r.trace ++ [Ev.iter i] } i
    if r2.err.isSome then r2
    else bidStep sb numB r2 i

/-- send_all_orders: num_asks and num_bids are the dict lengths taken
before the loop; the loop runs over range(max num_asks num_bids),
sending the level-i ask when i < num_asks and the level-i bid when
i < num_bids, each with verifyOrder=False, and storing the returned
string into active_asks[i] / active_bids[i]. -/
def send_all_orders (sa sb : Nat → Order → String) (b : BookState) : SRes :=
  let numA := b.ask_levels.length
  let numB := b.bid_levels.length
  (List.range (max numA numB)).foldl (sendStep sa sb numA numB)
    { err := none, book := b, trace := [] }

/-- The abstract methods of the class, supplied by a subclass and the
trading venue; indexed by loop-iteration number (each call site may
see a different environment response).  checkFills models
check_order_fills, processFill the state effect of process_order_fill,
deleteAll the boolean result of delete_all_orders (symbol, verify,
retries; False means the deletion was still unconfirmed after the
retry budget), newLevels the levels installed by set_order_levels
(its documented effect: set self.ask_levels and self.bid_levels),
submitAsk and submitBid the string returned by send_limit_order for
the level-i ask resp. bid, and refreshNeeded the pair
(refresh_individually, refresh_all) from order_refresh_needed. -/
structure Oracles where
  refreshNeeded : Nat → Bool × Bool
  checkFills : Nat → Bool
  processFill : Nat → BookState → BookState
  deleteAll : Nat → String → Bool → Nat → Bool
  newLevels : Nat → List (Nat × Order) × List (Nat × Order)
  submitAsk : Nat → Nat → Order → String
  submitBid : Nat → Nat → Order → String

/-- Result of a method body on the full instance state. -/
structure Res where
  err : Option PyErr
  state : MMState
  trace : List Ev
deriving DecidableEq, Repr

/-- refresh_all_orders: reads self.symbol (AttributeError when the
attribute is absent, before anything else happens), then calls
delete_all_orders(symbol, verify=True, retries=1); on False it raises
Exception; otherwise it runs check_order_fills, on True
process_order_fill, then set_order_levels and send_all_orders. -/
def refresh_all_orders (O : Oracles) (k : Nat) (s : MMState) : Res :=
  match s.symbol with
  | none => { err := some (PyErr.attributeError "symbol"), state := s, trace := [] }
  | some sym =>
    if O.deleteAll k sym true 1 then
      let f := O.checkFills k
      let s1 := if f then { s with book := O.processFill k s.book } else s
      let tr1 := Ev.deleteAll sym true 1 :: Ev.checkFills f ::
        (if f then [Ev.processFill] else [])
      let nl := O.newLevels k
      let s2 := { s1 with book := { s1.book with
        ask_levels := nl.1, bid_levels := nl.2 } }
      let r := send_all_orders (O.submitAsk k) (O.submitBid k) s2.book
      { err := r.err, state := { s2 with book := r.book },
        trace := tr1 ++ [Ev.setOrderLevels, Ev.sendAllOrders] ++ r.trace }
    else
      { err := some (PyErr.exception "Error Deleting All Orders in refresh_all_orders"),
        state := s, trace := [Ev.deleteAll sym true 1] }

/-- One iteration of the while-loop of run: reassign the two flags
from order_refresh_needed; when neither is set, check_order_fills and,
on True, process_order_fill; then refresh_all_orders when refresh_all
is set, else refresh_individual_orders (whose base-class body is pass)
when refresh_individually is set, each followed by resetting both
flags.  Returns the flag values after the iteration and the result. -/
def run_iteration (O : Oracles) (k : Nat) (s : MMState) :
    (Bool × Bool) × Res :=
  let fl := O.refreshNeeded k
  let ri := fl.1
  let ra := fl.2
  let top : MMState × List Ev :=
    if !ri && !ra then
      let f := O.checkFills k
      if f then
        ({ s with book := O.processFill k s.book },
         [Ev.checkFills true, Ev.processFill])
      else (s, [Ev.checkFills false])
    else (s, [])
  let s1 := top.1
  let tr := top.2
  if ra then
    let r := refresh_all_orders O k s1
    ((false, false), { r with trace := tr ++ Ev.refreshAll :: r.trace })
  else if ri then
    ((false, false),
     { err := none, state := s1, trace := tr ++ [Ev.refreshIndividual] })
  else
    ((ri, ra), { err := none, state := s1, trace := tr })

/-- n iterations of the while-loop of run starting at iteration index
k, stopping when an exception propagates. -/
def loopN (O : Oracles) : Nat → Nat → Res → Res
  | _, 0, r => r
  | k, n+1, r =>
    if r.err.isSome then r
    else
      let step := run_iteration O k r.state
      loopN O (k+1) n { step.2 with trace := r.trace ++ step.2.trace }

/-- run, truncated after n loop iterations: the initial
send_all_orders (oracle index 0) followed by the while loop
(iteration k uses oracle index k, starting at 1). -/
def run_model (O : Oracles) (n : Nat) (s : MMState) : Res :=
  let r0 := send_all_orders (O.submitAsk 0) (O.submitBid 0) s.book
  loopN O 1 n
    { err := r0.err, state := { s with book := r0.book }, trace := r0.trace }

/-- A dict maps each level index to at most one client order ID:
its key list has no duplicates (Invariant 1 of the spec, per side). -/
def WFBook (b : BookState) : Prop :=
  (dkeys b.active_asks).Nodup ∧ (dkeys b.active_bids).Nodup

instance (b : BookState) : Decidable (WFBook b) := by
  unfold WFBook; infer_instance

theorem mem_dkeys_iff_dcontains (d : List (Nat × α)) (k : Nat) :
    k ∈ dkeys d ↔ dcontains d k = true := by
  induction d with
  | nil => simp [dkeys, dcontains]
  | cons p d ih =>
    simp only [dkeys, dcontains, List.map_cons, List.mem_cons,
      Bool.or_eq_true, beq_iff_eq] at *
    constructor
    · rintro (h | h)
      · exact Or.inl h.symm
      · exact Or.inr (ih.mp h)
    · rintro (h | h)
      · exact Or.inl h.symm
      · exact Or.inr (ih.mpr h)

theorem dget?_isSome (d : List (Nat × α)) (k : Nat) :
    (dget? d k).isSome = dcontains d k := by
  induction d with
  | nil => rfl
  | cons p d ih =>
    simp only [dget?, dcontains]
    by_cases h : p.1 == k
    · simp [h]
    · simp only [h, Bool.false_or, if_false]
      exact ih

theorem dget?_eq_none_iff (d : List (Nat × α)) (k : Nat) :
    dget? d k = none ↔ dcontains d k = false := by
  rw [← dget?_isSome]
  cases dget? d k <;> simp

theorem dget?_dinsert_self (d : List (Nat × α)) (k : Nat) (v : α) :
    dget? (dinsert d k v) k = some v := by
  induction d with
  | nil => simp [dinsert, dget?]
  | cons p d ih =>
    by_cases h : p.1 == k
    · simp [dinsert, h, dget?]
    · simp only [dinsert, h, if_false, dget?]
      exact ih

theorem dget?_dinsert_ne (d : List (Nat × α)) (k : Nat) (v : α) (j : Nat)
    (hne : j ≠ k) : dget? (dinsert d k v) j = dget? d j := by
  have hj : ((k : Nat) == j) = false := by
    simp only [beq_eq_false_iff_ne]
    exact fun hkj => hne hkj.symm
  induction d with
  | nil => simp [dinsert, dget?, hj]
  | cons p d ih =>
    by_cases h : p.1 == k
    · have hpj : (p.1 == j) = false := by
        simp only [beq_iff_eq] at h
        rw [h]
        exact hj
      simp [dinsert, h, dget?, hj, hpj]
    · by_cases hpj : p.1 == j
      · simp [dinsert, h, dget?, hpj]
      · simp only [dinsert, h, if_false, dget?, hpj]
        exact ih

theorem dcontains_dinsert (d : List (Nat × α)) (k : Nat) (v : α) (j : Nat) :
    dcontains (dinsert d k v) j = (dcontains d j || (j == k)) := by
  rw [← dget?_isSome, ← dget?_isSome]
  by_cases hne : j = k
  · subst hne
    simp [dget?_dinsert_self]
  · rw [dget?_dinsert_ne d k v j hne]
    have : (j == k) = false := by simp [beq_eq_false_iff_ne, hne]
    simp [this]

theorem dkeys_dinsert (d : List (Nat × α)) (k : Nat) (v : α) :
    dkeys (dinsert d k v)
      = if dcontains d k then dkeys d else dkeys d ++ [k] := by
  induction d with
  | nil => simp [dinsert, dkeys, dcontains]
  | cons p d ih =>
    by_cases h : p.1 == k
    · have hk : p.1 = k := by simpa [beq_iff_eq] using h
      simp [dinsert, h, dkeys, dcontains, hk]
    · have h0 : (p.1 == k) = false := by
        simpa using h
      simp only [dinsert, h0, Bool.false_eq_true, if_false, dkeys,
        List.map_cons, dcontains, Bool.false_or]
      rw [show List.map Prod.fst (dinsert d k v) = dkeys (dinsert d k v)
        from rfl, ih]
      by_cases hc : dcontains d k
      · simp [hc, dkeys]
      · simp [hc, dkeys]

theorem nodup_dinsert (d : List (Nat × α)) (k : Nat) (v : α)
    (h : (dkeys d).Nodup) : (dkeys (dinsert d k v)).Nodup := by
  rw [dkeys_dinsert]
  by_cases hc : dcontains d k
  · simpa [hc] using h
  · simp only [hc, if_false]
    refine List.Nodup.append h (List.nodup_singleton k) ?_
    intro x hx hxk
    simp only [List.mem_singleton] at hxk
    subst hxk
    rw [mem_dkeys_iff_dcontains] at hx
    rw [hx] at hc
    exact hc rfl

/-- The events of a send_all_orders loop iteration i when no KeyError
occurs. -/
def itrace (numA numB i : Nat) : List Ev :=
  Ev.iter i :: ((if i < numA then [Ev.submitA i] else []) ++
    (if i < numB then [Ev.submitB i] else []))

/-- The events of the first m loop iterations of send_all_orders when
no KeyError occurs. -/
def sendTrace (numA numB : Nat) : Nat → List Ev
  | 0 => []
  | m+1 => sendTrace numA numB m ++ itrace numA numB m

/-- The first m loop iterations of send_all_orders on book b. -/
def sendFold (sa sb : Nat → Order → String) (numA numB : Nat)
    (m : Nat) (b : BookState) : SRes :=
  (List.range m).foldl (sendStep sa sb numA numB)
    { err := none, book := b, trace := [] }

theorem send_all_orders_eq_sendFold (sa sb : Nat → Order → String)
    (b : BookState) :
    send_all_orders sa sb b
      = sendFold sa sb b.ask_levels.length b.bid_levels.length
          (max b.ask_levels.length b.bid_levels.length) b := rfl

theorem sendFold_succ (sa sb : Nat → Order → String) (nA nB m : Nat)
    (b : BookState) :
    sendFold sa sb nA nB (m+1) b
      = sendStep sa sb nA nB (sendFold sa sb nA nB m b) m := by
  unfold sendFold
  rw [List.range_succ, List.foldl_append]
  rfl

theorem sendStep_of_err (sa sb : Nat → Order → String) (nA nB : Nat)
    (r : SRes) (i : Nat) (h : r.err.isSome) :
    sendStep sa sb nA nB r i = r := by
  unfold sendStep
  simp [h]

/-- Events that the body of send_all_orders can emit. -/
def isSendEv : Ev → Bool
  | Ev.iter _ => true
  | Ev.submitA _ => true
  | Ev.submitB _ => true
  | _ => false

/-- Loop-iteration marker events. -/
def isIter : Ev → Bool
  | Ev.iter _ => true
  | _ => false

/-- Both sides of a level dict are 0-based and contiguous: every
index below the dict length is a key. -/
def denseSide (d : List (Nat × Order)) : Prop :=
  ∀ i, i < d.length → dcontains d i = true

instance (d : List (Nat × Order)) : Decidable (denseSide d) := by
  unfold denseSide
  infer_instance

theorem askStep_levels (sa : Nat → Order → String) (nA : Nat)
    (r : SRes) (i : Nat) :
    (askStep sa nA r i).book.ask_levels = r.book.ask_levels ∧
    (askStep sa nA r i).book.bid_levels = r.book.bid_levels ∧
    (askStep sa nA r i).book.active_bids = r.book.active_bids := by
  unfold askStep
  split
  · split <;> exact ⟨rfl, rfl, rfl⟩
  · exact ⟨rfl, rfl, rfl⟩

theorem bidStep_levels (sb : Nat → Order → String) (nB : Nat)
    (r : SRes) (i : Nat) :
    (bidStep sb nB r i).book.ask_levels = r.book.ask_levels ∧
    (bidStep sb nB r i).book.bid_levels = r.book.bid_levels ∧
    (bidStep sb nB r i).book.active_asks = r.book.active_asks := by
  unfold bidStep
  split
  · split <;> exact ⟨rfl, rfl, rfl⟩
  · exact ⟨rfl, rfl, rfl⟩

theorem sendStep_levels (sa sb : Nat → Order → String) (nA nB : Nat)
    (r : SRes) (i : Nat) :
    (sendStep sa sb nA nB r i).book.ask_levels = r.book.ask_levels ∧
    (sendStep sa sb nA nB r i).book.bid_levels = r.book.bid_levels := by
  unfold sendStep
  split
  · exact ⟨rfl, rfl⟩
  · dsimp only
    split
    · constructor
      · exact (askStep_levels sa nA _ i).1
      · exact (askStep_levels sa nA _ i).2.1
    · constructor
      · rw [(bidStep_levels sb nB _ i).1]
        exact (askStep_levels sa nA _ i).1
      · rw [(bidStep_levels sb nB _ i).2.1]
        exact (askStep_levels sa nA _ i).2.1

theorem sendFold_levels (sa sb : Nat → Order → String) (nA nB : Nat)
    (m : Nat) (b : BookState) :
    (sendFold sa sb nA nB m b).book.ask_levels = b.ask_levels ∧
    (sendFold sa sb nA nB m b).book.bid_levels = b.bid_levels := by
  induction m with
  | zero => exact ⟨rfl, rfl⟩
  | succ m ih =>
    rw [sendFold_succ]
    constructor
    · rw [(sendStep_levels sa sb nA nB _ m).1]
      exact ih.1
    · rw [(sendStep_levels sa sb nA nB _ m).2]
      exact ih.2

theorem askStep_skip (sa : Nat → Order → String) (nA : Nat) (r : SRes)
    (i : Nat) (hi : ¬ i < nA) : askStep sa nA r i = r := by
  unfold askStep
  simp [hi]

theorem askStep_some (sa : Nat → Order → String) (nA : Nat) (r : SRes)
    (i : Nat) (o : Order) (hi : i < nA)
    (ho : dget? r.book.ask_levels i = some o) :
    askStep sa nA r i
      = { r with
          book := { r.book with
            active_asks := dinsert r.book.active_asks i (sa i o) },
          trace := r.trace ++ [Ev.submitA i] } := by
  unfold askStep
  simp [hi, ho]

theorem askStep_none (sa : Nat → Order → String) (nA : Nat) (r : SRes)
    (i : Nat) (hi : i < nA)
    (ho : dget? r.book.ask_levels i = none) :
    askStep sa nA r i = { r with err := some (PyErr.keyError i) } := by
  unfold askStep
  simp [hi, ho]

theorem bidStep_skip (sb : Nat → Order → String) (nB : Nat) (r : SRes)
    (i : Nat) (hi : ¬ i < nB) : bidStep sb nB r i = r := by
  unfold bidStep
  simp [hi]

theorem bidStep_some (sb : Nat → Order → String) (nB : Nat) (r : SRes)
    (i : Nat) (o : Order) (hi : i < nB)
    (ho : dget? r.book.bid_levels i = some o) :
    bidStep sb nB r i
      = { r with
          book := { r.book with
            active_bids := dinsert r.book.active_bids i (sb i o) },
          trace := r.trace ++ [Ev.submitB i] } := by
  unfold bidStep
  simp [hi, ho]

theorem bidStep_none (sb : Nat → Order → String) (nB : Nat) (r : SRes)
    (i : Nat) (hi : i < nB)
    (ho : dget? r.book.bid_levels i = none) :
    bidStep sb nB r i = { r with err := some (PyErr.keyError i) } := by
  unfold bidStep
  simp [hi, ho]

theorem askStep_asks_mono (sa : Nat → Order → String) (nA : Nat)
    (r : SRes) (i k : Nat)
    (h : dcontains r.book.active_asks k = true) :
    dcontains (askStep sa nA r i).book.active_asks k = true := by
  by_cases hi : i < nA
  · cases ho : dget? r.book.ask_levels i with
    | none => rw [askStep_none sa nA r i hi ho]; exact h
    | some o =>
      rw [askStep_some sa nA r i o hi ho]
      dsimp only
      rw [dcontains_dinsert]
      simp [h]
  · rw [askStep_skip sa nA r i hi]; exact h

theorem bidStep_bids_mono (sb : Nat → Order → String) (nB : Nat)
    (r : SRes) (i k : Nat)
    (h : dcontains r.book.active_bids k = true) :
    dcontains (bidStep sb nB r i).book.active_bids k = true := by
  by_cases hi : i < nB
  · cases ho : dget? r.book.bid_levels i with
    | none => rw [bidStep_none sb nB r i hi ho]; exact h
    | some o =>
      rw [bidStep_some sb nB r i o hi ho]
      dsimp only
      rw [dcontains_dinsert]
      simp [h]
  · rw [bidStep_skip sb nB r i hi]; exact h

theorem sendStep_active_mono (sa sb : Nat → Order → String)
    (nA nB : Nat) (r : SRes) (i k : Nat) :
    (dcontains r.book.active_asks k = true →
      dcontains (sendStep sa sb nA nB r i).book.active_asks k = true) ∧
    (dcontains r.book.active_bids k = true →
      dcontains (sendStep sa sb nA nB r i).book.active_bids k = true) := by
  unfold sendStep
  split
  · exact ⟨fun h => h, fun h => h⟩
  · dsimp only
    split
    · constructor
      · intro h
        exact askStep_asks_mono sa nA _ i k h
      · intro h
        rw [(askStep_levels sa nA _ i).2.2]
        exact h
    · constructor
      · intro h
        rw [(bidStep_levels sb nB _ i).2.2]
        exact askStep_asks_mono sa nA _ i k h
      · intro h
        apply bidStep_bids_mono
        rw [(askStep_levels sa nA _ i).2.2]
        exact h

theorem sendFold_active_mono (sa sb : Nat → Order → String)
    (nA nB m : Nat) (b : BookState) (k : Nat) :
    (dcontains b.active_asks k = true →
      dcontains (sendFold sa sb nA nB m b).book.active_asks k = true) ∧
    (dcontains b.active_bids k = true →
      dcontains (sendFold sa sb nA nB m b).book.active_bids k = true) := by
  induction m with
  | zero => exact ⟨fun h => h, fun h => h⟩
  | succ m ih =>
    rw [sendFold_succ]
    constructor
    · intro h
      exact (sendStep_active_mono sa sb nA nB _ m k).1 (ih.1 h)
    · intro h
      exact (sendStep_active_mono sa sb nA nB _ m k).2 (ih.2 h)

theorem sendStep_err_char (sa sb : Nat → Order → String) (nA nB : Nat)
    (r : SRes) (i : Nat) (e : PyErr)
    (he : (sendStep sa sb nA nB r i).err = some e) :
    r.err = some e ∨
    (∃ j, e = PyErr.keyError j ∧
      ((j < nA ∧ dcontains r.book.ask_levels j = false) ∨
       (j < nB ∧ dcontains r.book.bid_levels j = false))) := by
  by_cases h0 : r.err.isSome
  · rw [sendStep_of_err sa sb nA nB r i h0] at he
    exact Or.inl he
  · unfold sendStep at he
    simp only [h0, if_false, Bool.false_eq_true] at he
    set r1 : SRes := { r with trace := r.trace ++ [Ev.iter i] } with hr1
    have hr1book : r1.book = r.book := rfl
    have hr1err : r1.err = r.err := rfl
    by_cases hiA : i < nA
    · cases hoA : dget? r1.book.ask_levels i with
      | none =>
        rw [askStep_none sa nA r1 i hiA hoA] at he
        simp at he
        refine Or.inr ⟨i, he.symm ▸ rfl, Or.inl ⟨hiA, ?_⟩⟩
        rw [← hr1book]
        exact (dget?_eq_none_iff r1.book.ask_levels i).mp hoA
      | some o =>
        rw [askStep_some sa nA r1 i o hiA hoA] at he
        set r2 : SRes :=
          { r1 with
            book := { r1.book with
              active_asks := dinsert r1.book.active_asks i (sa i o) },
            trace := r1.trace ++ [Ev.submitA i] } with hr2
        have hr2err : r2.err = r.err := rfl
        have hr2errF : r2.err.isSome = false := by
          rw [hr2err]
          simpa using h0
        simp only [hr2errF, Bool.false_eq_true, if_false] at he
        by_cases hiB : i < nB
        · cases hoB : dget? r2.book.bid_levels i with
          | none =>
            rw [bidStep_none sb nB r2 i hiB hoB] at he
            simp at he
            refine Or.inr ⟨i, he.symm ▸ rfl, Or.inr ⟨hiB, ?_⟩⟩
            have : r2.book.bid_levels = r.book.bid_levels := rfl
            rw [← this]
            exact (dget?_eq_none_iff r2.book.bid_levels i).mp hoB
          | some o2 =>
            rw [bidStep_some sb nB r2 i o2 hiB hoB] at he
            simp only [] at he
            rw [show ({ r2 with
              book := { r2.book with
                active_bids := dinsert r2.book.active_bids i (sb i o2) },
              trace := r2.trace ++ [Ev.submitB i] } : SRes).err = r2.err
              from rfl, hr2err] at he
            exact Or.inl he
        · rw [bidStep_skip sb nB r2 i hiB] at he
          rw [hr2err] at he
          exact Or.inl he
    · rw [askStep_skip sa nA r1 i hiA] at he
      have hr1errF : r1.err.isSome = false := by
        rw [hr1err]
        simpa using h0
      simp only [hr1errF, Bool.false_eq_true, if_false] at he
      by_cases hiB : i < nB
      · cases hoB : dget? r1.book.bid_levels i with
        | none =>
          rw [bidStep_none sb nB r1 i hiB hoB] at he
          simp at he
          refine Or.inr ⟨i, he.symm ▸ rfl, Or.inr ⟨hiB, ?_⟩⟩
          rw [← hr1book]
          exact (dget?_eq_none_iff r1.book.bid_levels i).mp hoB
        | some o2 =>
          rw [bidStep_some sb nB r1 i o2 hiB hoB] at he
          rw [show ({ r1 with
            book := { r1.book with
              active_bids := dinsert r1.book.active_bids i (sb i o2) },
            trace := r1.trace ++ [Ev.submitB i] } : SRes).err = r1.err
            from rfl, hr1err] at he
          exact Or.inl he
      · rw [bidStep_skip sb nB r1 i hiB] at he
        rw [hr1err] at he
        exact Or.inl he

theorem sendFold_err_char (sa sb : Nat → Order → String) (nA nB m : Nat)
    (b : BookState) (e : PyErr)
    (he : (sendFold sa sb nA nB m b).err = some e) :
    ∃ j, e = PyErr.keyError j ∧
      ((j < nA ∧ dcontains b.ask_levels j = false) ∨
       (j < nB ∧ dcontains b.bid_levels j = false)) := by
  induction m with
  | zero => simp [sendFold] at he
  | succ m ih =>
    rw [sendFold_succ] at he
    rcases sendStep_err_char sa sb nA nB _ m e he with h | h
    · exact ih h
    · obtain ⟨j, hj, hside⟩ := h
      refine ⟨j, hj, ?_⟩
      rw [(sendFold_levels sa sb nA nB m b).1,
        (sendFold_levels sa sb nA nB m b).2] at hside
      exact hside

theorem sendFold_err_of_missing (sa sb : Nat → Order → String)
    (nA nB m : Nat) (b : BookState) (j : Nat) (hjm : j < m)
    (hmiss : (j < nA ∧ dcontains b.ask_levels j = false) ∨
             (j < nB ∧ dcontains b.bid_levels j = false)) :
    ((sendFold sa sb nA nB m b).err).isSome = true := by
  induction m with
  | zero => omega
  | succ m ih =>
    rw [sendFold_succ]
    by_cases hjm2 : j < m
    · have h := ih hjm2
      rw [sendStep_of_err sa sb nA nB _ m h]
      exact h
    · have hj : j = m := by omega
      subst hj
      by_cases h0 : (sendFold sa sb nA nB j b).err.isSome
      · rw [sendStep_of_err sa sb nA nB _ j h0]
        exact h0
      · set r : SRes := sendFold sa sb nA nB j b with hr
        unfold sendStep
        simp only [h0, Bool.false_eq_true, if_false]
        set r1 : SRes := { r with trace := r.trace ++ [Ev.iter j] } with hr1
        have hbookA : r1.book.ask_levels = b.ask_levels :=
          (sendFold_levels sa sb nA nB j b).1
        have hbookB : r1.book.bid_levels = b.bid_levels :=
          (sendFold_levels sa sb nA nB j b).2
        rcases hmiss with ⟨hjA, hcA⟩ | ⟨hjB, hcB⟩
        · have ho : dget? r1.book.ask_levels j = none := by
            rw [hbookA]
            exact (dget?_eq_none_iff b.ask_levels j).mpr hcA
          rw [askStep_none sa nA r1 j hjA ho]
          simp
        · have ho : dget? r1.book.bid_levels j = none := by
            rw [hbookB]
            exact (dget?_eq_none_iff b.bid_levels j).mpr hcB
          by_cases hjA : j < nA
          · cases hoA : dget? r1.book.ask_levels j with
            | none =>
              rw [askStep_none sa nA r1 j hjA hoA]
              simp
            | some o =>
              rw [askStep_some sa nA r1 j o hjA hoA]
              set r2 : SRes :=
                { r1 with
                  book := { r1.book with
                    active_asks := dinsert r1.book.active_asks j (sa j o) },
                  trace := r1.trace ++ [Ev.submitA j] } with hr2
              have hr2err : r2.err.isSome = false := by
                simpa using h0
              simp only [hr2err, Bool.false_eq_true, if_false]
              have ho2 : dget? r2.book.bid_levels j = none := ho
              rw [bidStep_none sb nB r2 j hjB ho2]
              simp
          · rw [askStep_skip sa nA r1 j hjA]
            have hr1err : r1.err.isSome = false := by simpa using h0
            simp only [hr1err, Bool.false_eq_true, if_false]
            rw [bidStep_none sb nB r1 j hjB ho]
            simp

theorem sendStep_nodup (sa sb : Nat → Order → String) (nA nB : Nat)
    (r : SRes) (i : Nat) (h : WFBook r.book) :
    WFBook (sendStep sa sb nA nB r i).book := by
  obtain ⟨h1, h2⟩ := h
  unfold sendStep
  split
  · exact ⟨h1, h2⟩
  · dsimp only
    set r1 : SRes := { r with trace := r.trace ++ [Ev.iter i] } with hr1
    have g1 : WFBook (askStep sa nA r1 i).book := by
      by_cases hiA : i < nA
      · cases hoA : dget? r1.book.ask_levels i with
        | none =>
          rw [askStep_none sa nA r1 i hiA hoA]
          exact ⟨h1, h2⟩
        | some o =>
          rw [askStep_some sa nA r1 i o hiA hoA]
          exact ⟨nodup_dinsert _ i (sa i o) h1, h2⟩
      · rw [askStep_skip sa nA r1 i hiA]
        exact ⟨h1, h2⟩
    split
    · exact g1
    · set r2 : SRes := askStep sa nA r1 i with hr2
      by_cases hiB : i < nB
      · cases hoB : dget? r2.book.bid_levels i with
        | none =>
          rw [bidStep_none sb nB r2 i hiB hoB]
          exact g1
        | some o =>
          rw [bidStep_some sb nB r2 i o hiB hoB]
          exact ⟨g1.1, nodup_dinsert _ i (sb i o) g1.2⟩
      · rw [bidStep_skip sb nB r2 i hiB]
        exact g1

theorem sendFold_nodup (sa sb : Nat → Order → String) (nA nB m : Nat)
    (b : BookState) (h : WFBook b) :
    WFBook (sendFold sa sb nA nB m b).book := by
  induction m with
  | zero => exact h
  | succ m ih =>
    rw [sendFold_succ]
    exact sendStep_nodup sa sb nA nB _ m ih

theorem sendStep_trace_events (sa sb : Nat → Order → String)
    (nA nB : Nat) (r : SRes) (i : Nat) :
    ∀ e ∈ (sendStep sa sb nA nB r i).trace,
      e ∈ r.trace ∨ isSendEv e = true := by
  intro e he
  unfold sendStep at he
  split at he
  · exact Or.inl he
  · dsimp only at he
    set r1 : SRes := { r with trace := r.trace ++ [Ev.iter i] } with hr1
    have htr1 : ∀ x ∈ r1.trace, x ∈ r.trace ∨ isSendEv x = true := by
      intro x hx
      rw [hr1] at hx
      simp only [List.mem_append, List.mem_singleton] at hx
      rcases hx with hx | hx
      · exact Or.inl hx
      · subst hx
        exact Or.inr rfl
    have htr2 : ∀ x ∈ (askStep sa nA r1 i).trace,
        x ∈ r.trace ∨ isSendEv x = true := by
      intro x hx
      by_cases hiA : i < nA
      · cases hoA : dget? r1.book.ask_levels i with
        | none =>
          rw [askStep_none sa nA r1 i hiA hoA] at hx
          exact htr1 x hx
        | some o =>
          rw [askStep_some sa nA r1 i o hiA hoA] at hx
          rcases List.mem_append.mp hx with hx | hx
          · exact htr1 x hx
          · rw [List.mem_singleton] at hx
            subst hx
            exact Or.inr rfl
      · rw [askStep_skip sa nA r1 i hiA] at hx
        exact htr1 x hx
    split at he
    · exact htr2 e he
    · set r2 : SRes := askStep sa nA r1 i with hr2
      by_cases hiB : i < nB
      · cases hoB : dget? r2.book.bid_levels i with
        | none =>
          rw [bidStep_none sb nB r2 i hiB hoB] at he
          exact htr2 e he
        | some o =>
          rw [bidStep_some sb nB r2 i o hiB hoB] at he
          rcases List.mem_append.mp he with he | he
          · exact htr2 e he
          · rw [List.mem_singleton] at he
            subst he
            exact Or.inr rfl
      · rw [bidStep_skip sb nB r2 i hiB] at he
        exact htr2 e he

theorem sendFold_trace_events (sa sb : Nat → Order → String)
    (nA nB m : Nat) (b : BookState) :
    ∀ e ∈ (sendFold sa sb nA nB m b).trace, isSendEv e = true := by
  induction m with
  | zero => intro e he; simp [sendFold] at he
  | succ m ih =>
    intro e he
    rw [sendFold_succ] at he
    rcases sendStep_trace_events sa sb nA nB _ m e he with h | h
    · exact ih e h
    · exact h

theorem sendFold_bids_const (sa sb : Nat → Order → String)
    (nA m : Nat) (b : BookState) :
    (sendFold sa sb nA 0 m b).book.active_bids = b.active_bids := by
  induction m with
  | zero => rfl
  | succ m ih =>
    rw [sendFold_succ]
    unfold sendStep
    split
    · exact ih
    · dsimp only
      set r1 : SRes :=
        { sendFold sa sb nA 0 m b with
          trace := (sendFold sa sb nA 0 m b).trace ++ [Ev.iter m] } with hr1
      have hb1 : (askStep sa nA r1 m).book.active_bids = b.active_bids := by
        rw [(askStep_levels sa nA r1 m).2.2]
        exact ih
      split
      · exact hb1
      · rw [bidStep_skip sb 0 _ m (by omega)]
        exact hb1

theorem sendFold_success (sa sb : Nat → Order → String) (nA nB m : Nat)
    (b : BookState)
    (hA : ∀ j, j < m → j < nA → dcontains b.ask_levels j = true)
    (hB : ∀ j, j < m → j < nB → dcontains b.bid_levels j = true) :
    (sendFold sa sb nA nB m b).err = none ∧
    (sendFold sa sb nA nB m b).trace = sendTrace nA nB m ∧
    (∀ i o, i < m → i < nA → dget? b.ask_levels i = some o →
      dget? (sendFold sa sb nA nB m b).book.active_asks i = some (sa i o)) ∧
    (∀ i o, i < m → i < nB → dget? b.bid_levels i = some o →
      dget? (sendFold sa sb nA nB m b).book.active_bids i = some (sb i o)) := by
  induction m with
  | zero =>
    refine ⟨rfl, rfl, ?_, ?_⟩ <;> (intro i o h1 h2 h3; omega)
  | succ m ih =>
    obtain ⟨ih1, ih2, ih3, ih4⟩ :=
      ih (fun j hj => hA j (by omega)) (fun j hj => hB j (by omega))
    rw [sendFold_succ]
    set r : SRes := sendFold sa sb nA nB m b with hr
    have hrA : r.book.ask_levels = b.ask_levels :=
      (sendFold_levels sa sb nA nB m b).1
    have hrB : r.book.bid_levels = b.bid_levels :=
      (sendFold_levels sa sb nA nB m b).2
    have h0 : r.err.isSome = false := by rw [ih1]; rfl
    unfold sendStep
    simp only [h0, Bool.false_eq_true, if_false]
    set r1 : SRes := { r with trace := r.trace ++ [Ev.iter m] } with hr1
    have hr1A : r1.book.ask_levels = b.ask_levels := hrA
    have hr1B : r1.book.bid_levels = b.bid_levels := hrB
    by_cases hmA : m < nA
    · have hcA : (dget? b.ask_levels m).isSome = true := by
        rw [dget?_isSome]
        exact hA m (by omega) hmA
      obtain ⟨o, ho⟩ := Option.isSome_iff_exists.mp hcA
      have ho1 : dget? r1.book.ask_levels m = some o := by rw [hr1A]; exact ho
      rw [askStep_some sa nA r1 m o hmA ho1]
      set r2 : SRes :=
        { r1 with
          book := { r1.book with
            active_asks := dinsert r1.book.active_asks m (sa m o) },
          trace := r1.trace ++ [Ev.submitA m] } with hr2
      have hr2err : r2.err.isSome = false := h0
      simp only [hr2err, Bool.false_eq_true, if_false]
      by_cases hmB : m < nB
      · have hcB : (dget? b.bid_levels m).isSome = true := by
          rw [dget?_isSome]
          exact hB m (by omega) hmB
        obtain ⟨o2, ho2⟩ := Option.isSome_iff_exists.mp hcB
        have ho2r : dget? r2.book.bid_levels m = some o2 := by
          rw [show r2.book.bid_levels = b.bid_levels from hr1B]
          exact ho2
        rw [bidStep_some sb nB r2 m o2 hmB ho2r]
        refine ⟨ih1, ?_, ?_, ?_⟩
        · show r.trace ++ [Ev.iter m] ++ [Ev.submitA m] ++ [Ev.submitB m]
            = sendTrace nA nB (m+1)
          rw [ih2]
          simp [sendTrace, itrace, hmA, hmB]
        · intro i o' hi hiA ho'
          show dget? (dinsert r.book.active_asks m (sa m o)) i = some (sa i o')
          by_cases him : i = m
          · subst him
            rw [ho] at ho'
            cases ho'
            exact dget?_dinsert_self _ i (sa i o)
          · rw [dget?_dinsert_ne _ m (sa m o) i him]
            exact ih3 i o' (by omega) hiA ho'
        · intro i o' hi hiB ho'
          show dget? (dinsert r.book.active_bids m (sb m o2)) i = some (sb i o')
          by_cases him : i = m
          · subst him
            rw [ho2] at ho'
            cases ho'
            exact dget?_dinsert_self _ i (sb i o2)
          · rw [dget?_dinsert_ne _ m (sb m o2) i him]
            exact ih4 i o' (by omega) hiB ho'
      · rw [bidStep_skip sb nB r2 m hmB]
        refine ⟨ih1, ?_, ?_, ?_⟩
        · show r.trace ++ [Ev.iter m] ++ [Ev.submitA m] = sendTrace nA nB (m+1)
          rw [ih2]
          simp [sendTrace, itrace, hmA, hmB]
        · intro i o' hi hiA ho'
          show dget? (dinsert r.book.active_asks m (sa m o)) i = some (sa i o')
          by_cases him : i = m
          · subst him
            rw [ho] at ho'
            cases ho'
            exact dget?_dinsert_self _ i (sa i o)
          · rw [dget?_dinsert_ne _ m (sa m o) i him]
            exact ih3 i o' (by omega) hiA ho'
        · intro i o' hi hiB ho'
          show dget? r.book.active_bids i = some (sb i o')
          exact ih4 i o' (by omega) hiB ho'
    · rw [askStep_skip sa nA r1 m hmA]
      have hr1err : r1.err.isSome = false := h0
      simp only [hr1err, Bool.false_eq_true, if_false]
      by_cases hmB : m < nB
      · have hcB : (dget? b.bid_levels m).isSome = true := by
          rw [dget?_isSome]
          exact hB m (by omega) hmB
        obtain ⟨o2, ho2⟩ := Option.isSome_iff_exists.mp hcB
        have ho2r : dget? r1.book.bid_levels m = some o2 := by
          rw [hr1B]
          exact ho2
        rw [bidStep_some sb nB r1 m o2 hmB ho2r]
        refine ⟨ih1, ?_, ?_, ?_⟩
        · show r.trace ++ [Ev.iter m] ++ [Ev.submitB m] = sendTrace nA nB (m+1)
          rw [ih2]
          simp [sendTrace, itrace, hmA, hmB]
        · intro i o' hi hiA ho'
          show dget? r.book.active_asks i = some (sa i o')
          exact ih3 i o' (by omega) hiA ho'
        · intro i o' hi hiB ho'
          show dget? (dinsert r.book.active_bids m (sb m o2)) i = some (sb i o')
          by_cases him : i = m
          · subst him
            rw [ho2] at ho'
            cases ho'
            exact dget?_dinsert_self _ i (sb i o2)
          · rw [dget?_dinsert_ne _ m (sb m o2) i him]
            exact ih4 i o' (by omega) hiB ho'
      · rw [bidStep_skip sb nB r1 m hmB]
        refine ⟨ih1, ?_, ?_, ?_⟩
        · show r.trace ++ [Ev.iter m] = sendTrace nA nB (m+1)
          rw [ih2]
          simp [sendTrace, itrace, hmA, hmB]
        · intro i o' hi hiA ho'
          show dget? r.book.active_asks i = some (sa i o')
          exact ih3 i o' (by omega) hiA ho'
        · intro i o' hi hiB ho'
          show dget? r.book.active_bids i = some (sb i o')
          exact ih4 i o' (by omega) hiB ho'

theorem filter_isIter_itrace (nA nB j : Nat) :
    ((itrace nA nB j).filter isIter).length = 1 := by
  unfold itrace
  by_cases hA : j < nA <;> by_cases hB : j < nB <;>
    simp [hA, hB, isIter, List.filter]

theorem filter_isIter_sendTrace (nA nB m : Nat) :
    ((sendTrace nA nB m).filter isIter).length = m := by
  induction m with
  | zero => rfl
  | succ m ih =>
    simp only [sendTrace, List.filter_append, List.length_append, ih,
      filter_isIter_itrace]

theorem submitA_mem_itrace (nA nB j i : Nat) :
    Ev.submitA i ∈ itrace nA nB j ↔ (i = j ∧ j < nA) := by
  unfold itrace
  by_cases hA : j < nA <;> by_cases hB : j < nB <;>
    simp [hA, hB, and_comm]

theorem submitB_mem_itrace (nA nB j i : Nat) :
    Ev.submitB i ∈ itrace nA nB j ↔ (i = j ∧ j < nB) := by
  unfold itrace
  by_cases hA : j < nA <;> by_cases hB : j < nB <;>
    simp [hA, hB, and_comm]

theorem submitA_mem_sendTrace (nA nB m i : Nat) :
    Ev.submitA i ∈ sendTrace nA nB m ↔ (i < nA ∧ i < m) := by
  induction m with
  | zero => simp [sendTrace]
  | succ m ih =>
    simp only [sendTrace, List.mem_append, ih, submitA_mem_itrace]
    constructor
    · rintro (⟨h1, h2⟩ | ⟨h1, h2⟩)
      · exact ⟨h1, by omega⟩
      · subst h1
        exact ⟨h2, by omega⟩
    · rintro ⟨h1, h2⟩
      by_cases him : i < m
      · exact Or.inl ⟨h1, him⟩
      · have : i = m := by omega
        subst this
        exact Or.inr ⟨rfl, h1⟩

theorem submitB_mem_sendTrace (nA nB m i : Nat) :
    Ev.submitB i ∈ sendTrace nA nB m ↔ (i < nB ∧ i < m) := by
  induction m with
  | zero => simp [sendTrace]
  | succ m ih =>
    simp only [sendTrace, List.mem_append, ih, submitB_mem_itrace]
    constructor
    · rintro (⟨h1, h2⟩ | ⟨h1, h2⟩)
      · exact ⟨h1, by omega⟩
      · subst h1
        exact ⟨h2, by omega⟩
    · rintro ⟨h1, h2⟩
      by_cases him : i < m
      · exact Or.inl ⟨h1, him⟩
      · have : i = m := by omega
        subst this
        exact Or.inr ⟨rfl, h1⟩

theorem refresh_no_symbol (O : Oracles) (k : Nat) (s : MMState)
    (h : s.symbol = none) :
    refresh_all_orders O k s
      = { err := some (PyErr.attributeError "symbol"), state := s,
          trace := [] } := by
  unfold refresh_all_orders
  rw [h]

theorem refresh_delete_failed (O : Oracles) (k : Nat) (s : MMState)
    (sym : String) (hsym : s.symbol = some sym)
    (hdel : O.deleteAll k sym true 1 = false) :
    refresh_all_orders O k s
      = { err := some
            (PyErr.exception "Error Deleting All Orders in refresh_all_orders"),
          state := s, trace := [Ev.deleteAll sym true 1] } := by
  unfold refresh_all_orders
  rw [hsym]
  simp [hdel]

theorem refresh_delete_ok (O : Oracles) (k : Nat) (s : MMState)
    (sym : String) (hsym : s.symbol = some sym)
    (hdel : O.deleteAll k sym true 1 = true) :
    refresh_all_orders O k s
      = (let f := O.checkFills k
         let s1 := if f then { s with book := O.processFill k s.book } else s
         let nl := O.newLevels k
         let s2 := { s1 with book := { s1.book with
           ask_levels := nl.1, bid_levels := nl.2 } }
         let r := send_all_orders (O.submitAsk k) (O.submitBid k) s2.book
         { err := r.err, state := { s2 with book := r.book },
           trace := (Ev.deleteAll sym true 1 :: Ev.checkFills f ::
             (if f then [Ev.processFill] else []))
             ++ [Ev.setOrderLevels, Ev.sendAllOrders] ++ r.trace }) := by
  unfold refresh_all_orders
  rw [hsym]
  simp [hdel]

theorem keys_lt_of_dense (d : List (Nat × α))
    (hN : (dkeys d).Nodup)
    (hdense : ∀ i, i < d.length → dcontains d i = true) :
    ∀ i, i ∈ dkeys d → i < d.length := by
  intro i hi
  have hsub : Finset.range d.length ⊆ (dkeys d).toFinset := by
    intro j hj
    rw [Finset.mem_range] at hj
    rw [List.mem_toFinset, mem_dkeys_iff_dcontains]
    exact hdense j hj
  have hcard : (dkeys d).toFinset.card = d.length := by
    rw [List.toFinset_card_of_nodup hN]
    simp [dkeys]
  have heq : (dkeys d).toFinset = Finset.range d.length := by
    apply Finset.eq_of_subset_of_card_le ?_ ?_ |>.symm
    · exact hsub
    · rw [hcard, Finset.card_range]
  have : i ∈ (dkeys d).toFinset := List.mem_toFinset.mpr hi
  rw [heq, Finset.mem_range] at this
  exact this

/-- A sample planned quote level. -/
def demoOrder : Order :=
  { clOrdID := "ord0", side := "sell", px := 100, qty := 1, alo := true,
    tif := "GTC", params := [] }

/-- A second sample planned quote level. -/
def demoOrder2 : Order :=
  { clOrdID := "ord1", side := "buy", px := 99, qty := 2, alo := true,
    tif := "GTC", params := [] }

/-- A benign concrete environment: no fills, deletions succeed, the
strategy sets no levels, submissions return the client order ID. -/
def baseOracle : Oracles :=
  { refreshNeeded := fun _ => (false, false)
    checkFills := fun _ => false
    processFill := fun _ b => b
    deleteAll := fun _ _ _ _ => true
    newLevels := fun _ => ([], [])
    submitAsk := fun _ _ o => o.clOrdID
    submitBid := fun _ _ o => o.clOrdID }

/-- A subclass instance that did assign self.symbol. -/
def mmWithSymbol : MMState :=
  { initMM "BTC" "USD" "BTC-USD" with symbol := some "BTC-USD" }

/-- A book with one planned ask level and nothing else. -/
def demoBook1 : BookState :=
  { ask_levels := [(0, demoOrder)], bid_levels := [], active_asks := [],
    active_bids := [] }

/-- A submission primitive whose sends all fail: it returns the empty
string, the documented failure value of send_limit_order. -/
def failSubmit : Nat → Order → String := fun _ _ => ""

/-- C1: the claim as stated is false on the code.  send_all_orders
stores the value returned by send_limit_order unconditionally, so
when the submission of the level-0 ask fails (returns the empty
string), level 0 does afterwards appear as a key of active_asks: the
failure value itself is recorded there. -/
theorem C1_counterexample :
    failSubmit 0 demoOrder = "" ∧
    dcontains (send_all_orders failSubmit failSubmit demoBook1).book.active_asks 0
      = true := by
  constructor
  · rfl
  · decide

/-- C1 (amended): when send_limit_order returns the empty string for
the level-i ask (respectively bid) during send_all_orders over
contiguous 0-based level dicts, the level-i slot of active_asks
(respectively active_bids) afterwards holds exactly that empty
string: the key is present but maps to the failure value, never to a
non-empty phantom order ID. -/
theorem C1_failed_send_stores_empty_value (sa sb : Nat → Order → String)
    (b : BookState)
    (hA : denseSide b.ask_levels) (hB : denseSide b.bid_levels) :
    (∀ i o, i < b.ask_levels.length → dget? b.ask_levels i = some o →
      sa i o = "" →
      dget? (send_all_orders sa sb b).book.active_asks i = some "") ∧
    (∀ i o, i < b.bid_levels.length → dget? b.bid_levels i = some o →
      sb i o = "" →
      dget? (send_all_orders sa sb b).book.active_bids i = some "") := by
  rw [send_all_orders_eq_sendFold]
  obtain ⟨-, -, h3, h4⟩ :=
    sendFold_success sa sb b.ask_levels.length b.bid_levels.length
      (max b.ask_levels.length b.bid_levels.length) b
      (fun j _ hj2 => hA j hj2) (fun j _ hj2 => hB j hj2)
  constructor
  · intro i o hi ho hfail
    have h := h3 i o (by omega) hi ho
    rw [hfail] at h
    exact h
  · intro i o hi ho hfail
    have h := h4 i o (by omega) hi ho
    rw [hfail] at h
    exact h

/-- A book with one planned ask level and one planned bid level. -/
def demoBook11 : BookState :=
  { ask_levels := [(0, demoOrder)], bid_levels := [(0, demoOrder2)],
    active_asks := [], active_bids := [] }

theorem C1_witness :
    denseSide demoBook11.ask_levels ∧ denseSide demoBook11.bid_levels ∧
    ((∀ i o, i < demoBook11.ask_levels.length →
        dget? demoBook11.ask_levels i = some o → failSubmit i o = "" →
        dget? (send_all_orders failSubmit failSubmit
          demoBook11).book.active_asks i = some "") ∧
     (∀ i o, i < demoBook11.bid_levels.length →
        dget? demoBook11.bid_levels i = some o → failSubmit i o = "" →
        dget? (send_all_orders failSubmit failSubmit
          demoBook11).book.active_bids i = some "")) :=
  ⟨by decide, by decide,
   C1_failed_send_stores_empty_value failSubmit failSubmit demoBook11
     (by decide) (by decide)⟩

/-- C2: when self.symbol is set and delete_all_orders — invoked with
verify=True and retries=1 — reports failure (False, i.e. the deletion
was still unconfirmed after the initial attempt and its single
retry), refresh_all_orders raises the fatal Exception, its trace is
exactly the delete call, so neither set_order_levels nor
send_all_orders is called, and the state is unchanged. -/
theorem C2_cancel_retry_exhaustion_is_fatal (O : Oracles) (k : Nat)
    (s : MMState) (sym : String) (hsym : s.symbol = some sym)
    (hdel : O.deleteAll k sym true 1 = false) :
    (refresh_all_orders O k s).err
      = some (PyErr.exception "Error Deleting All Orders in refresh_all_orders") ∧
    (refresh_all_orders O k s).trace = [Ev.deleteAll sym true 1] ∧
    Ev.setOrderLevels ∉ (refresh_all_orders O k s).trace ∧
    Ev.sendAllOrders ∉ (refresh_all_orders O k s).trace ∧
    (refresh_all_orders O k s).state = s := by
  rw [refresh_delete_failed O k s sym hsym hdel]
  refine ⟨rfl, rfl, ?_, ?_, rfl⟩ <;> simp

/-- An environment whose bulk deletions always fail. -/
def failDeleteOracle : Oracles :=
  { baseOracle with deleteAll := fun _ _ _ _ => false }

theorem C2_witness :
    mmWithSymbol.symbol = some "BTC-USD" ∧
    failDeleteOracle.deleteAll 0 "BTC-USD" true 1 = false ∧
    ((refresh_all_orders failDeleteOracle 0 mmWithSymbol).err
      = some (PyErr.exception "Error Deleting All Orders in refresh_all_orders") ∧
    (refresh_all_orders failDeleteOracle 0 mmWithSymbol).trace
      = [Ev.deleteAll "BTC-USD" true 1] ∧
    Ev.setOrderLevels ∉ (refresh_all_orders failDeleteOracle 0 mmWithSymbol).trace ∧
    Ev.sendAllOrders ∉ (refresh_all_orders failDeleteOracle 0 mmWithSymbol).trace ∧
    (refresh_all_orders failDeleteOracle 0 mmWithSymbol).state = mmWithSymbol) :=
  ⟨rfl, rfl,
   C2_cancel_retry_exhaustion_is_fatal failDeleteOracle 0 mmWithSymbol
     "BTC-USD" rfl rfl⟩

/-- C3: on an instance whose attributes are exactly those assigned by
__init__ — in particular, the attribute `symbol` is absent —
refresh_all_orders raises AttributeError while evaluating
self.symbol: the trace is empty (delete_all_orders is never invoked)
and the state, including ask_levels, bid_levels, active_asks and
active_bids, is unchanged. -/
theorem C3_refresh_raises_attribute_error (O : Oracles) (k : Nat)
    (s : MMState) (h : s.symbol = none) :
    (refresh_all_orders O k s).err = some (PyErr.attributeError "symbol") ∧
    (refresh_all_orders O k s).trace = [] ∧
    (refresh_all_orders O k s).state = s := by
  rw [refresh_no_symbol O k s h]
  exact ⟨rfl, rfl, rfl⟩

theorem C3_witness :
    (initMM "BTC" "USD" "BTC-USD").symbol = none ∧
    ((refresh_all_orders baseOracle 0 (initMM "BTC" "USD" "BTC-USD")).err
        = some (PyErr.attributeError "symbol") ∧
     (refresh_all_orders baseOracle 0 (initMM "BTC" "USD" "BTC-USD")).trace = [] ∧
     (refresh_all_orders baseOracle 0 (initMM "BTC" "USD" "BTC-USD")).state
        = initMM "BTC" "USD" "BTC-USD") :=
  ⟨rfl, C3_refresh_raises_attribute_error baseOracle 0
    (initMM "BTC" "USD" "BTC-USD") rfl⟩

/-- C4: whenever the bulk cancellation succeeds, refresh_all_orders
performs, in this strict order: the delete call, then the fill check,
then — exactly when the check reported fills — fill processing, and
only after that set_order_levels followed by send_all_orders; the
remaining events are the submission events of send_all_orders. -/
theorem C4_bulk_refresh_strict_order (O : Oracles) (k : Nat)
    (s : MMState) (sym : String) (hsym : s.symbol = some sym)
    (hdel : O.deleteAll k sym true 1 = true) :
    ∃ tl, (refresh_all_orders O k s).trace
        = Ev.deleteAll sym true 1 :: Ev.checkFills (O.checkFills k) ::
          ((if O.checkFills k then [Ev.processFill] else [])
            ++ ([Ev.setOrderLevels, Ev.sendAllOrders] ++ tl)) ∧
      (∀ e ∈ tl, isSendEv e = true) := by
  rw [refresh_delete_ok O k s sym hsym hdel]
  refine ⟨(send_all_orders (O.submitAsk k) (O.submitBid k)
      { (if O.checkFills k then { s with book := O.processFill k s.book }
          else s).book with
        ask_levels := (O.newLevels k).1,
        bid_levels := (O.newLevels k).2 }).trace, ?_, ?_⟩
  · show (Ev.deleteAll sym true 1 :: Ev.checkFills (O.checkFills k) ::
      (if O.checkFills k then [Ev.processFill] else []))
      ++ [Ev.setOrderLevels, Ev.sendAllOrders] ++ _ = _
    simp [List.cons_append, List.append_assoc]
  · intro e he
    rw [send_all_orders_eq_sendFold] at he
    exact sendFold_trace_events _ _ _ _ _ _ e he

theorem C4_witness :
    mmWithSymbol.symbol = some "BTC-USD" ∧
    baseOracle.deleteAll 0 "BTC-USD" true 1 = true ∧
    (∃ tl, (refresh_all_orders baseOracle 0 mmWithSymbol).trace
        = Ev.deleteAll "BTC-USD" true 1 ::
          Ev.checkFills (baseOracle.checkFills 0) ::
          ((if baseOracle.checkFills 0 then [Ev.processFill] else [])
            ++ ([Ev.setOrderLevels, Ev.sendAllOrders] ++ tl)) ∧
      (∀ e ∈ tl, isSendEv e = true)) :=
  ⟨rfl, rfl,
   C4_bulk_refresh_strict_order baseOracle 0 mmWithSymbol "BTC-USD" rfl rfl⟩

/-- C9: over contiguous 0-based level dicts, send_all_orders succeeds,
its loop runs exactly max(num_asks, num_bids) iterations, an ask is
submitted for level i exactly when i < num_asks and a bid exactly when
i < num_bids; with an empty bid side, active_bids is left unchanged
(in particular, empty stays empty) and no error is raised. -/
theorem C9_mixed_depth_submission (sa sb : Nat → Order → String)
    (b : BookState)
    (hA : denseSide b.ask_levels) (hB : denseSide b.bid_levels) :
    (send_all_orders sa sb b).err = none ∧
    ((send_all_orders sa sb b).trace.filter isIter).length
      = max b.ask_levels.length b.bid_levels.length ∧
    (∀ i, Ev.submitA i ∈ (send_all_orders sa sb b).trace
      ↔ i < b.ask_levels.length) ∧
    (∀ i, Ev.submitB i ∈ (send_all_orders sa sb b).trace
      ↔ i < b.bid_levels.length) ∧
    (b.bid_levels.length = 0 →
      (send_all_orders sa sb b).book.active_bids = b.active_bids) := by
  obtain ⟨h1, h2, _, _⟩ :=
    sendFold_success sa sb b.ask_levels.length b.bid_levels.length
      (max b.ask_levels.length b.bid_levels.length) b
      (fun j _ hj2 => hA j hj2) (fun j _ hj2 => hB j hj2)
  rw [send_all_orders_eq_sendFold]
  refine ⟨h1, ?_, ?_, ?_, ?_⟩
  · rw [h2, filter_isIter_sendTrace]
  · intro i
    rw [h2, submitA_mem_sendTrace]
    omega
  · intro i
    rw [h2, submitB_mem_sendTrace]
    omega
  · intro h0
    rw [h0]
    have := sendFold_bids_const sa sb b.ask_levels.length
      (max b.ask_levels.length 0) b
    simpa using this

/-- A book with three planned ask levels and one planned bid level. -/
def demoBook31 : BookState :=
  { ask_levels := [(0, demoOrder), (1, demoOrder), (2, demoOrder)],
    bid_levels := [(0, demoOrder2)],
    active_asks := [], active_bids := [] }

theorem C9_witness :
    denseSide demoBook31.ask_levels ∧ denseSide demoBook31.bid_levels ∧
    ((send_all_orders failSubmit failSubmit demoBook31).err = none ∧
     ((send_all_orders failSubmit failSubmit demoBook31).trace.filter
        isIter).length
       = max demoBook31.ask_levels.length demoBook31.bid_levels.length ∧
     (∀ i, Ev.submitA i ∈ (send_all_orders failSubmit failSubmit demoBook31).trace
       ↔ i < demoBook31.ask_levels.length) ∧
     (∀ i, Ev.submitB i ∈ (send_all_orders failSubmit failSubmit demoBook31).trace
       ↔ i < demoBook31.bid_levels.length) ∧
     (demoBook31.bid_levels.length = 0 →
       (send_all_orders failSubmit failSubmit demoBook31).book.active_bids
         = demoBook31.active_bids)) :=
  ⟨by decide, by decide,
   C9_mixed_depth_submission failSubmit failSubmit demoBook31
     (by decide) (by decide)⟩

/-- C10: over Python-representable level dicts (no duplicate keys),
send_all_orders terminates without error exactly when both level
dicts are 0-based and contiguous; on success each side's keys are
precisely 0..count-1; and any raised error is a KeyError on an index
below a side's count that is missing from that side's dict. -/
theorem C10_sparse_levels_raise_key_error (sa sb : Nat → Order → String)
    (b : BookState)
    (hNA : (dkeys b.ask_levels).Nodup) (hNB : (dkeys b.bid_levels).Nodup) :
    ((send_all_orders sa sb b).err = none ↔
      (denseSide b.ask_levels ∧ denseSide b.bid_levels)) ∧
    ((send_all_orders sa sb b).err = none →
      (∀ i, i ∈ dkeys b.ask_levels ↔ i < b.ask_levels.length) ∧
      (∀ i, i ∈ dkeys b.bid_levels ↔ i < b.bid_levels.length)) ∧
    (∀ e, (send_all_orders sa sb b).err = some e →
      ∃ j, e = PyErr.keyError j ∧
        ((j < b.ask_levels.length ∧ dcontains b.ask_levels j = false) ∨
         (j < b.bid_levels.length ∧ dcontains b.bid_levels j = false))) := by
  rw [send_all_orders_eq_sendFold]
  have hiff : (sendFold sa sb b.ask_levels.length b.bid_levels.length
      (max b.ask_levels.length b.bid_levels.length) b).err = none ↔
      (denseSide b.ask_levels ∧ denseSide b.bid_levels) := by
    constructor
    · intro hnone
      constructor
      · intro i hi
        by_contra hcon
        have hfalse : dcontains b.ask_levels i = false := by
          simpa using hcon
        have := sendFold_err_of_missing sa sb b.ask_levels.length
          b.bid_levels.length (max b.ask_levels.length b.bid_levels.length)
          b i (by omega) (Or.inl ⟨hi, hfalse⟩)
        rw [hnone] at this
        simp at this
      · intro i hi
        by_contra hcon
        have hfalse : dcontains b.bid_levels i = false := by
          simpa using hcon
        have := sendFold_err_of_missing sa sb b.ask_levels.length
          b.bid_levels.length (max b.ask_levels.length b.bid_levels.length)
          b i (by omega) (Or.inr ⟨hi, hfalse⟩)
        rw [hnone] at this
        simp at this
    · rintro ⟨hA, hB⟩
      exact (sendFold_success sa sb b.ask_levels.length b.bid_levels.length
        (max b.ask_levels.length b.bid_levels.length) b
        (fun j _ hj2 => hA j hj2) (fun j _ hj2 => hB j hj2)).1
  refine ⟨hiff, ?_, ?_⟩
  · intro hnone
    obtain ⟨hA, hB⟩ := hiff.mp hnone
    constructor
    · intro i
      constructor
      · exact keys_lt_of_dense b.ask_levels hNA hA i
      · intro hi
        rw [mem_dkeys_iff_dcontains]
        exact hA i hi
    · intro i
      constructor
      · exact keys_lt_of_dense b.bid_levels hNB hB i
      · intro hi
        rw [mem_dkeys_iff_dcontains]
        exact hB i hi
  · intro e he
    exact sendFold_err_char sa sb b.ask_levels.length b.bid_levels.length
      (max b.ask_levels.length b.bid_levels.length) b e he

/-- A sparse book: the single ask level sits at key 1, so index 0 is
below the count but missing. -/
def sparseBook : BookState :=
  { ask_levels := [(1, demoOrder)], bid_levels := [], active_asks := [],
    active_bids := [] }

theorem C10_witness :
    (dkeys sparseBook.ask_levels).Nodup ∧
    (dkeys sparseBook.bid_levels).Nodup ∧
    (((send_all_orders failSubmit failSubmit sparseBook).err = none ↔
        (denseSide sparseBook.ask_levels ∧ denseSide sparseBook.bid_levels)) ∧
     ((send_all_orders failSubmit failSubmit sparseBook).err = none →
        (∀ i, i ∈ dkeys sparseBook.ask_levels ↔
          i < sparseBook.ask_levels.length) ∧
        (∀ i, i ∈ dkeys sparseBook.bid_levels ↔
          i < sparseBook.bid_levels.length)) ∧
     (∀ e, (send_all_orders failSubmit failSubmit sparseBook).err = some e →
        ∃ j, e = PyErr.keyError j ∧
          ((j < sparseBook.ask_levels.length ∧
              dcontains sparseBook.ask_levels j = false) ∨
           (j < sparseBook.bid_levels.length ∧
              dcontains sparseBook.bid_levels j = false)))) ∧
    (send_all_orders failSubmit failSubmit sparseBook).err
      = some (PyErr.keyError 0) :=
  ⟨by decide, by decide,
   C10_sparse_levels_raise_key_error failSubmit failSubmit sparseBook
     (by decide) (by decide),
   by decide⟩

/-- A strategy that installs a single new ask level on refresh. -/
def refreshOracle5 : Oracles :=
  { baseOracle with newLevels := fun _ => ([(0, demoOrder)], []) }

/-- An instance holding three active ask handles before a refresh. -/
def s5 : MMState :=
  { mmWithSymbol with book :=
    { ask_levels := [(0, demoOrder), (1, demoOrder), (2, demoOrder)],
      bid_levels := [],
      active_asks := [(0, "a0"), (1, "a1"), (2, "a2")],
      active_bids := [] } }

/-- C5 counterexample: a bulk refresh that succeeds with no fills and
whose new level set has one ask level leaves keys 1 and 2 — above the
new level count — in active_asks, still holding their old handles:
confirmed-inactive keys are not removed. -/
theorem C5_counterexample :
    (refresh_all_orders refreshOracle5 0 s5).err = none ∧
    (refreshOracle5.newLevels 0).1.length = 1 ∧
    dget? (refresh_all_orders refreshOracle5 0 s5).state.book.active_asks 1
      = some "a1" ∧
    dget? (refresh_all_orders refreshOracle5 0 s5).state.book.active_asks 2
      = some "a2" := by
  refine ⟨by decide, rfl, by decide, by decide⟩

theorem askStep_asks_value_high (sa : Nat → Order → String) (nA : Nat)
    (r : SRes) (i j : Nat) (v : String) (hj : nA ≤ j)
    (h : dget? r.book.active_asks j = some v) :
    dget? (askStep sa nA r i).book.active_asks j = some v := by
  by_cases hi : i < nA
  · cases ho : dget? r.book.ask_levels i with
    | none => rw [askStep_none sa nA r i hi ho]; exact h
    | some o =>
      rw [askStep_some sa nA r i o hi ho]
      dsimp only
      rw [dget?_dinsert_ne _ i (sa i o) j (by omega)]
      exact h
  · rw [askStep_skip sa nA r i hi]; exact h

theorem bidStep_bids_value_high (sb : Nat → Order → String) (nB : Nat)
    (r : SRes) (i j : Nat) (v : String) (hj : nB ≤ j)
    (h : dget? r.book.active_bids j = some v) :
    dget? (bidStep sb nB r i).book.active_bids j = some v := by
  by_cases hi : i < nB
  · cases ho : dget? r.book.bid_levels i with
    | none => rw [bidStep_none sb nB r i hi ho]; exact h
    | some o =>
      rw [bidStep_some sb nB r i o hi ho]
      dsimp only
      rw [dget?_dinsert_ne _ i (sb i o) j (by omega)]
      exact h
  · rw [bidStep_skip sb nB r i hi]; exact h

theorem sendStep_asks_high (sa sb : Nat → Order → String) (nA nB : Nat)
    (r : SRes) (i j : Nat) (v : String) (hj : nA ≤ j)
    (h : dget? r.book.active_asks j = some v) :
    dget? (sendStep sa sb nA nB r i).book.active_asks j = some v := by
  unfold sendStep
  split
  · exact h
  · dsimp only
    split
    · exact askStep_asks_value_high sa nA _ i j v hj h
    · rw [(bidStep_levels sb nB _ i).2.2]
      exact askStep_asks_value_high sa nA _ i j v hj h

theorem sendStep_bids_high (sa sb : Nat → Order → String) (nA nB : Nat)
    (r : SRes) (i j : Nat) (v : String) (hj : nB ≤ j)
    (h : dget? r.book.active_bids j = some v) :
    dget? (sendStep sa sb nA nB r i).book.active_bids j = some v := by
  unfold sendStep
  split
  · exact h
  · dsimp only
    have h2 : dget? (askStep sa nA
        { r with trace := r.trace ++ [Ev.iter i] } i).book.active_bids j
        = some v := by
      rw [(askStep_levels sa nA _ i).2.2]
      exact h
    split
    · exact h2
    · exact bidStep_bids_value_high sb nB _ i j v hj h2

theorem sendFold_asks_high (sa sb : Nat → Order → String) (nA nB m : Nat)
    (b : BookState) (j : Nat) (v : String) (hj : nA ≤ j)
    (h : dget? b.active_asks j = some v) :
    dget? (sendFold sa sb nA nB m b).book.active_asks j = some v := by
  induction m with
  | zero => exact h
  | succ m ih =>
    rw [sendFold_succ]
    exact sendStep_asks_high sa sb nA nB _ m j v hj ih

theorem sendFold_bids_high (sa sb : Nat → Order → String) (nA nB m : Nat)
    (b : BookState) (j : Nat) (v : String) (hj : nB ≤ j)
    (h : dget? b.active_bids j = some v) :
    dget? (sendFold sa sb nA nB m b).book.active_bids j = some v := by
  induction m with
  | zero => exact h
  | succ m ih =>
    rw [sendFold_succ]
    exact sendStep_bids_high sa sb nA nB _ m j v hj ih

/-- C5 (amended): in a bulk refresh whose cancel succeeds and whose
post-cancel fill check reports no fills, refresh_all_orders removes
no key from active_asks or active_bids: every previously active key
is still present afterwards; every key at or above the new level
count of its side retains exactly its old (confirmed-cancelled)
handle; and when the new level dicts are contiguous, the keys below
the new counts are the ones overwritten by send_all_orders with the
freshly returned values. -/
theorem C5_refresh_never_removes_active_keys (O : Oracles) (k : Nat)
    (s : MMState) (sym : String) (hsym : s.symbol = some sym)
    (hdel : O.deleteAll k sym true 1 = true)
    (hf : O.checkFills k = false) :
    (∀ j, dcontains s.book.active_asks j = true →
      dcontains (refresh_all_orders O k s).state.book.active_asks j = true) ∧
    (∀ j, dcontains s.book.active_bids j = true →
      dcontains (refresh_all_orders O k s).state.book.active_bids j = true) ∧
    (∀ j v, (O.newLevels k).1.length ≤ j →
      dget? s.book.active_asks j = some v →
      dget? (refresh_all_orders O k s).state.book.active_asks j = some v) ∧
    (∀ j v, (O.newLevels k).2.length ≤ j →
      dget? s.book.active_bids j = some v →
      dget? (refresh_all_orders O k s).state.book.active_bids j = some v) ∧
    (denseSide (O.newLevels k).1 → denseSide (O.newLevels k).2 →
      (∀ i o, i < (O.newLevels k).1.length →
        dget? (O.newLevels k).1 i = some o →
        dget? (refresh_all_orders O k s).state.book.active_asks i
          = some (O.submitAsk k i o)) ∧
      (∀ i o, i < (O.newLevels k).2.length →
        dget? (O.newLevels k).2 i = some o →
        dget? (refresh_all_orders O k s).state.book.active_bids i
          = some (O.submitBid k i o))) := by
  rw [refresh_delete_ok O k s sym hsym hdel]
  simp only [hf, Bool.false_eq_true, if_false]
  refine ⟨?_, ?_, ?_, ?_, ?_⟩
  · intro j hjc
    rw [send_all_orders_eq_sendFold]
    exact (sendFold_active_mono (O.submitAsk k) (O.submitBid k) _ _ _ _ j).1 hjc
  · intro j hjc
    rw [send_all_orders_eq_sendFold]
    exact (sendFold_active_mono (O.submitAsk k) (O.submitBid k) _ _ _ _ j).2 hjc
  · intro j v hj hv
    rw [send_all_orders_eq_sendFold]
    exact sendFold_asks_high (O.submitAsk k) (O.submitBid k) _ _ _ _ j v hj hv
  · intro j v hj hv
    rw [send_all_orders_eq_sendFold]
    exact sendFold_bids_high (O.submitAsk k) (O.submitBid k) _ _ _ _ j v hj hv
  · intro hdA hdB
    obtain ⟨-, -, h3, h4⟩ :=
      sendFold_success (O.submitAsk k) (O.submitBid k)
        (O.newLevels k).1.length (O.newLevels k).2.length
        (max (O.newLevels k).1.length (O.newLevels k).2.length)
        { s.book with
          ask_levels := (O.newLevels k).1
          bid_levels := (O.newLevels k).2 }
        (fun j _ hj2 => hdA j hj2) (fun j _ hj2 => hdB j hj2)
    constructor
    · intro i o hi ho
      rw [send_all_orders_eq_sendFold]
      exact h3 i o (by omega) hi ho
    · intro i o hi ho
      rw [send_all_orders_eq_sendFold]
      exact h4 i o (by omega) hi ho

theorem C5_witness :
    s5.symbol = some "BTC-USD" ∧
    refreshOracle5.deleteAll 0 "BTC-USD" true 1 = true ∧
    refreshOracle5.checkFills 0 = false ∧
    ((∀ j, dcontains s5.book.active_asks j = true →
       dcontains (refresh_all_orders refreshOracle5 0 s5).state.book.active_asks j
         = true) ∧
     (∀ j, dcontains s5.book.active_bids j = true →
       dcontains (refresh_all_orders refreshOracle5 0 s5).state.book.active_bids j
         = true) ∧
     (∀ j v, (refreshOracle5.newLevels 0).1.length ≤ j →
       dget? s5.book.active_asks j = some v →
       dget? (refresh_all_orders refreshOracle5 0 s5).state.book.active_asks j
         = some v) ∧
     (∀ j v, (refreshOracle5.newLevels 0).2.length ≤ j →
       dget? s5.book.active_bids j = some v →
       dget? (refresh_all_orders refreshOracle5 0 s5).state.book.active_bids j
         = some v) ∧
     (denseSide (refreshOracle5.newLevels 0).1 →
      denseSide (refreshOracle5.newLevels 0).2 →
      (∀ i o, i < (refreshOracle5.newLevels 0).1.length →
        dget? (refreshOracle5.newLevels 0).1 i = some o →
        dget? (refresh_all_orders refreshOracle5 0 s5).state.book.active_asks i
          = some (refreshOracle5.submitAsk 0 i o)) ∧
      (∀ i o, i < (refreshOracle5.newLevels 0).2.length →
        dget? (refreshOracle5.newLevels 0).2 i = some o →
        dget? (refresh_all_orders refreshOracle5 0 s5).state.book.active_bids i
          = some (refreshOracle5.submitBid 0 i o)))) :=
  ⟨rfl, rfl, rfl,
   C5_refresh_never_removes_active_keys refreshOracle5 0 s5 "BTC-USD"
     rfl rfl rfl⟩

theorem refresh_trace_mem (O : Oracles) (k : Nat) (s : MMState)
    (sym : String) (hsym : s.symbol = some sym)
    (hdel : O.deleteAll k sym true 1 = true) :
    ∀ e ∈ (refresh_all_orders O k s).trace,
      e = Ev.deleteAll sym true 1 ∨ e = Ev.checkFills (O.checkFills k) ∨
      e = Ev.processFill ∨ e = Ev.setOrderLevels ∨ e = Ev.sendAllOrders ∨
      isSendEv e = true := by
  rw [refresh_delete_ok O k s sym hsym hdel]
  intro e he
  rcases List.mem_append.mp he with h1 | h2
  · rcases List.mem_append.mp h1 with h3 | h4
    · rcases List.mem_cons.mp h3 with h | h3
      · exact Or.inl h
      rcases List.mem_cons.mp h3 with h | h3
      · exact Or.inr (Or.inl h)
      by_cases hf : O.checkFills k
      · rw [if_pos hf] at h3
        rw [List.mem_singleton] at h3
        exact Or.inr (Or.inr (Or.inl h3))
      · rw [if_neg hf] at h3
        exact absurd h3 (List.not_mem_nil e)
    · rcases List.mem_cons.mp h4 with h | h4
      · exact Or.inr (Or.inr (Or.inr (Or.inl h)))
      rw [List.mem_singleton] at h4
      exact Or.inr (Or.inr (Or.inr (Or.inr (Or.inl h4))))
  · rw [send_all_orders_eq_sendFold] at h2
    exact Or.inr (Or.inr (Or.inr (Or.inr (Or.inr
      (sendFold_trace_events _ _ _ _ _ _ e h2)))))

theorem refresh_no_processFill_of_no_fills (O : Oracles) (k : Nat)
    (s : MMState) (sym : String) (hsym : s.symbol = some sym)
    (hdel : O.deleteAll k sym true 1 = true)
    (hf : O.checkFills k = false) :
    Ev.processFill ∉ (refresh_all_orders O k s).trace := by
  rw [refresh_delete_ok O k s sym hsym hdel]
  intro he
  rcases List.mem_append.mp he with h1 | h2
  · rcases List.mem_append.mp h1 with h3 | h4
    · rcases List.mem_cons.mp h3 with h | h3
      · exact Ev.noConfusion h
      rcases List.mem_cons.mp h3 with h | h3
      · exact Ev.noConfusion h
      rw [hf] at h3
      simp at h3
    · rcases List.mem_cons.mp h4 with h | h4
      · exact Ev.noConfusion h
      rw [List.mem_singleton] at h4
      exact Ev.noConfusion h4
  · rw [send_all_orders_eq_sendFold] at h2
    have := sendFold_trace_events _ _ _ _ _ _ _ h2
    simp [isSendEv] at this

theorem refresh_trace_no_refreshIndividual (O : Oracles) (k : Nat)
    (s : MMState) :
    Ev.refreshIndividual ∉ (refresh_all_orders O k s).trace := by
  cases hsym : s.symbol with
  | none =>
    rw [refresh_no_symbol O k s hsym]
    simp
  | some sym =>
    cases hdel : O.deleteAll k sym true 1 with
    | false =>
      rw [refresh_delete_failed O k s sym hsym hdel]
      simp
    | true =>
      intro hmem
      rcases refresh_trace_mem O k s sym hsym hdel Ev.refreshIndividual hmem
        with h | h | h | h | h | h
      · exact Ev.noConfusion h
      · exact Ev.noConfusion h
      · exact Ev.noConfusion h
      · exact Ev.noConfusion h
      · exact Ev.noConfusion h
      · simp [isSendEv] at h

theorem refresh_processFill_only_on_fills (O : Oracles) (k : Nat)
    (s : MMState)
    (h : Ev.processFill ∈ (refresh_all_orders O k s).trace) :
    O.checkFills k = true := by
  cases hsym : s.symbol with
  | none =>
    rw [refresh_no_symbol O k s hsym] at h
    simp at h
  | some sym =>
    cases hdel : O.deleteAll k sym true 1 with
    | false =>
      rw [refresh_delete_failed O k s sym hsym hdel] at h
      rw [List.mem_singleton] at h
      exact Ev.noConfusion h
    | true =>
      cases hf : O.checkFills k with
      | false =>
        exact absurd h
          (refresh_no_processFill_of_no_fills O k s sym hsym hdel hf)
      | true => rfl

theorem run_iteration_ra (O : Oracles) (k : Nat) (s : MMState)
    (ri : Bool) (h : O.refreshNeeded k = (ri, true)) :
    run_iteration O k s
      = ((false, false),
         { refresh_all_orders O k s with
           trace := Ev.refreshAll :: (refresh_all_orders O k s).trace }) := by
  unfold run_iteration
  rw [h]
  cases ri <;> rfl

theorem run_iteration_ri_only (O : Oracles) (k : Nat) (s : MMState)
    (h : O.refreshNeeded k = (true, false)) :
    run_iteration O k s
      = ((false, false),
         { err := none, state := s, trace := [Ev.refreshIndividual] }) := by
  unfold run_iteration
  rw [h]
  rfl

theorem run_iteration_none (O : Oracles) (k : Nat) (s : MMState)
    (h : O.refreshNeeded k = (false, false)) :
    run_iteration O k s
      = ((false, false),
         if O.checkFills k then
           { err := none, state := { s with book := O.processFill k s.book },
             trace := [Ev.checkFills true, Ev.processFill] }
         else
           { err := none, state := s, trace := [Ev.checkFills false] }) := by
  unfold run_iteration
  rw [h]
  by_cases hc : O.checkFills k
  · rw [if_pos hc]
    simp [hc]
  · rw [if_neg hc]
    simp [hc]

/-- C6: in a loop iteration where order_refresh_needed returns
(refresh_individually=True, refresh_all=True), the engine calls
refresh_all_orders, never refresh_individual_orders, and — when the
iteration completes without an exception — both flags are False
afterwards. -/
theorem C6_refresh_all_takes_precedence (O : Oracles) (k : Nat)
    (s : MMState) (h : O.refreshNeeded k = (true, true)) :
    Ev.refreshAll ∈ (run_iteration O k s).2.trace ∧
    Ev.refreshIndividual ∉ (run_iteration O k s).2.trace ∧
    ((run_iteration O k s).2.err = none →
      (run_iteration O k s).1 = (false, false)) := by
  rw [run_iteration_ra O k s true h]
  refine ⟨List.mem_cons_self _ _, ?_, fun _ => rfl⟩
  intro hmem
  rcases List.mem_cons.mp hmem with h1 | h1
  · exact Ev.noConfusion h1
  · exact refresh_trace_no_refreshIndividual O k s h1

/-- A refresh decider that always requests both kinds of refresh. -/
def bothFlagsOracle : Oracles :=
  { baseOracle with refreshNeeded := fun _ => (true, true) }

theorem C6_witness :
    bothFlagsOracle.refreshNeeded 0 = (true, true) ∧
    (Ev.refreshAll ∈ (run_iteration bothFlagsOracle 0 mmWithSymbol).2.trace ∧
     Ev.refreshIndividual
       ∉ (run_iteration bothFlagsOracle 0 mmWithSymbol).2.trace ∧
     ((run_iteration bothFlagsOracle 0 mmWithSymbol).2.err = none →
       (run_iteration bothFlagsOracle 0 mmWithSymbol).1 = (false, false))) :=
  ⟨rfl, C6_refresh_all_takes_precedence bothFlagsOracle 0 mmWithSymbol rfl⟩

/-- C7: a loop iteration opens with the top-of-loop fill check exactly
when order_refresh_needed returned (False, False) — its trace then
starts with the checkFills event — and whenever process_order_fill
runs in an iteration (at the top or inside the bulk refresh),
check_order_fills reported a fill in that iteration. -/
theorem C7_fill_check_iff_no_flags (O : Oracles) (k : Nat) (s : MMState) :
    ((∃ f, ((run_iteration O k s).2.trace).head? = some (Ev.checkFills f))
       ↔ O.refreshNeeded k = (false, false)) ∧
    (Ev.processFill ∈ (run_iteration O k s).2.trace →
      O.checkFills k = true) := by
  rcases hfl : O.refreshNeeded k with ⟨ri, ra⟩
  cases ra with
  | false =>
    cases ri with
    | false =>
      rw [run_iteration_none O k s hfl]
      by_cases hc : O.checkFills k
      · rw [if_pos hc]
        exact ⟨⟨fun _ => rfl, fun _ => ⟨true, rfl⟩⟩, fun _ => hc⟩
      · rw [if_neg hc]
        refine ⟨⟨fun _ => rfl, fun _ => ⟨false, rfl⟩⟩, ?_⟩
        intro hmem
        rw [List.mem_singleton] at hmem
        exact Ev.noConfusion hmem
    | true =>
      rw [run_iteration_ri_only O k s hfl]
      constructor
      · constructor
        · rintro ⟨f, hf2⟩
          simp at hf2
        · intro hr
          simp at hr
      · intro hmem
        rw [List.mem_singleton] at hmem
        exact Ev.noConfusion hmem
  | true =>
    rw [run_iteration_ra O k s ri hfl]
    constructor
    · constructor
      · rintro ⟨f, hf2⟩
        simp at hf2
      · intro hr
        simp at hr
    · intro hmem
      rcases List.mem_cons.mp hmem with h1 | h1
      · exact Ev.noConfusion h1
      · exact refresh_processFill_only_on_fills O k s h1

theorem refresh_WF (O : Oracles) (k : Nat) (s : MMState)
    (hPF : ∀ b, WFBook b → WFBook (O.processFill k b))
    (h : WFBook s.book) :
    WFBook (refresh_all_orders O k s).state.book := by
  cases hsym : s.symbol with
  | none =>
    rw [refresh_no_symbol O k s hsym]
    exact h
  | some sym =>
    cases hdel : O.deleteAll k sym true 1 with
    | false =>
      rw [refresh_delete_failed O k s sym hsym hdel]
      exact h
    | true =>
      rw [refresh_delete_ok O k s sym hsym hdel]
      dsimp only
      rw [send_all_orders_eq_sendFold]
      apply sendFold_nodup
      by_cases hf : O.checkFills k
      · simp only [hf, if_true]
        exact hPF s.book h
      · simp only [hf, Bool.false_eq_true, if_false]
        exact h

theorem run_iteration_WF (O : Oracles) (k : Nat) (s : MMState)
    (hPF : ∀ b, WFBook b → WFBook (O.processFill k b))
    (h : WFBook s.book) :
    WFBook ((run_iteration O k s).2.state.book) := by
  rcases hfl : O.refreshNeeded k with ⟨ri, ra⟩
  cases ra with
  | false =>
    cases ri with
    | false =>
      rw [run_iteration_none O k s hfl]
      by_cases hc : O.checkFills k
      · rw [if_pos hc]
        exact hPF s.book h
      · rw [if_neg hc]
        exact h
    | true =>
      rw [run_iteration_ri_only O k s hfl]
      exact h
  | true =>
    rw [run_iteration_ra O k s ri hfl]
    exact refresh_WF O k s hPF h

theorem loopN_succ (O : Oracles) (k n : Nat) (r : Res) :
    loopN O k (n+1) r
      = if r.err.isSome then r
        else
          loopN O (k+1) n
            { (run_iteration O k r.state).2 with
              trace := r.trace ++ (run_iteration O k r.state).2.trace } := rfl

theorem loopN_WF (O : Oracles)
    (hPF : ∀ k b, WFBook b → WFBook (O.processFill k b)) :
    ∀ n k r, WFBook r.state.book → WFBook ((loopN O k n r).state.book) := by
  intro n
  induction n with
  | zero => intro k r h; exact h
  | succ n ih =>
    intro k r h
    rw [loopN_succ]
    by_cases he : r.err.isSome
    · rw [if_pos he]
      exact h
    · rw [if_neg he]
      apply ih
      exact run_iteration_WF O k r.state (hPF k) h

/-- C8: active_asks and active_bids each map every level index to at
most one client order ID (no duplicate keys), and this is preserved
at every point of the run: for every number n of loop iterations,
after the initial send_all_orders and n iterations of the loop —
covering every sequence of submissions, fills and refresh cycles —
both maps still have no duplicate keys, provided process_order_fill
(the only subclass hook that rewrites the maps wholesale) preserves
that shape. -/
theorem C8_at_most_one_handle_per_level (O : Oracles) (n : Nat)
    (s : MMState)
    (hPF : ∀ k b, WFBook b → WFBook (O.processFill k b))
    (h : WFBook s.book) :
    WFBook ((run_model O n s).state.book) := by
  unfold run_model
  apply loopN_WF O hPF n 1
  rw [send_all_orders_eq_sendFold]
  exact sendFold_nodup _ _ _ _ _ _ h

theorem C8_witness :
    (∀ k b, WFBook b → WFBook (baseOracle.processFill k b)) ∧
    WFBook mmWithSymbol.book ∧
    WFBook ((run_model baseOracle 2 mmWithSymbol).state.book) :=
  ⟨fun _ _ h => h, by decide,
   C8_at_most_one_handle_per_level baseOracle 2 mmWithSymbol
     (fun _ _ h => h) (by decide)⟩
